import Mathlib

/-!
# Verification of `seneca-mem-store` (`src/mem-store.ts`)

A shallow embedding of the in-memory document store.  JavaScript values are
modelled by `JVal` (with the numeric fragment restricted to integers, the only
numbers exercised here); records are ordered association lists of fields, as
JavaScript objects enumerate string keys in insertion order.  A field read on a
missing key yields `JVal.undef`, mirroring JavaScript's `undefined`.

Aliasing: the query pipeline (`listents`) pushes the stored object itself in
its single-id branch (`ent = entset[q]; list.push(ent)`, no `make$` copy),
while the id-list and filter-object branches push `qent.make$(ent)` copies.
A result element therefore carries `Option String`: `some i` marks the stored
record under key `i` itself (a live reference), `none` marks a fresh copy.
The field-projection step deletes fields on the result objects in place, so on
an aliased element the deletion is also visible in the store; the model
reflects that by writing the pruned record back for aliased elements.
-/

namespace MemStore

/-- JavaScript values (integer-numeric fragment).  Plain objects appearing as
query constraint values are modelled separately (`Constraints`). -/
inductive JVal where
  | undef
  | null
  | bool (b : Bool)
  | num (n : Int)
  | str (s : String)
  | arr (xs : List JVal)
deriving Repr, BEq

/-- `String(v)` / `ToString` for the modelled values; arrays convert by
`Array.prototype.join(",")`, where `null`/`undefined` elements become `""`. -/
def jToString : JVal → String
  | .undef => "undefined"
  | .null => "null"
  | .bool b => if b then "true" else "false"
  | .num n => toString n
  | .str s => s
  | .arr xs => jJoinList xs
where
  jJoinList : List JVal → String
  | [] => ""
  | x :: xs =>
    (match x with
      | .null => ""
      | .undef => ""
      | v => jToString v) ++ (if xs.isEmpty then "" else ",") ++ jJoinList xs

/-- `ToNumber` on a string, integer fragment: trimmed empty string is `0`,
an optional sign followed by digits parses, everything else is `NaN`
(`none`). -/
def strToNum (s : String) : Option Int :=
  let t := s.trim
  if t = "" then some 0
  else
    let core : Int × String :=
      if t.startsWith "-" then (-1, t.drop 1)
      else if t.startsWith "+" then (1, t.drop 1) else (1, t)
    if core.2 ≠ "" ∧ core.2.toList.all Char.isDigit then
      some (core.1 * (core.2.toList.foldl (fun acc c => acc * 10 + (c.toNat - '0'.toNat)) 0 : Nat))
    else none

/-- `ToNumber`; `none` models `NaN`. -/
def jToNum : JVal → Option Int
  | .undef => none
  | .null => some 0
  | .bool b => some (if b then 1 else 0)
  | .num n => some n
  | .str s => strToNum s
  | .arr xs => strToNum (jToString (.arr xs))

/-- `ToPrimitive` with number hint: arrays become their join string. -/
def toPrim : JVal → JVal
  | .arr xs => .str (jToString (.arr xs))
  | v => v

/-- The abstract relational comparison `a < b`; `none` models the `undefined`
result produced when a `NaN` is involved. -/
def jLtU (a b : JVal) : Option Bool :=
  match toPrim a, toPrim b with
  | .str x, .str y => some (compare x y == Ordering.lt)
  | x, y =>
    match jToNum x, jToNum y with
    | some m, some n => some (decide (m < n))
    | _, _ => none

/-- `a < b` (a `NaN` comparison is `false`). -/
def jLt (a b : JVal) : Bool := (jLtU a b).getD false

/-- `a > b`. -/
def jGt (a b : JVal) : Bool := (jLtU b a).getD false

/-- `a >= b` (`false` when a `NaN` is involved). -/
def jGe (a b : JVal) : Bool := jLtU a b == some false

/-- `a <= b`. -/
def jLe (a b : JVal) : Bool := jLtU b a == some false

/-- Strict equality `===`.  Arrays compare by reference in JavaScript; the two
operands reaching `===` in this code always come from distinct allocations
(query text vs. stored data), so array operands never compare equal. -/
def jStrictEq : JVal → JVal → Bool
  | .undef, .undef => true
  | .null, .null => true
  | .bool a, .bool b => a == b
  | .num a, .num b => a == b
  | .str a, .str b => a == b
  | _, _ => false

/-- Numeric loose-equality helper: `x == v` after the left side has been
reduced to a number. -/
def numEqJ (x : Int) : JVal → Bool
  | .num y => x == y
  | .str s => (strToNum s).any (fun y => x == y)
  | .bool b => x == (if b then 1 else 0)
  | .arr xs => (strToNum (jToString (.arr xs))).any (fun y => x == y)
  | _ => false

/-- Loose equality `==`. -/
def jLooseEq : JVal → JVal → Bool
  | .undef, .undef => true
  | .undef, .null => true
  | .null, .undef => true
  | .null, .null => true
  | .undef, _ => false
  | _, .undef => false
  | .null, _ => false
  | _, .null => false
  | .num x, y => numEqJ x y
  | x, .num y => numEqJ y x
  | .bool a, .bool b => a == b
  | .bool a, y => numEqJ (if a then 1 else 0) y
  | x, .bool b => numEqJ (if b then 1 else 0) x
  | .str a, .str b => a == b
  | .str a, .arr xs => a == jToString (.arr xs)
  | .arr xs, .str b => jToString (.arr xs) == b
  | .arr _, .arr _ => false

/-- `null == v`, i.e. `v` is `null` or `undefined`; the code's guards
`null != x` are `!nullish x`. -/
def nullish : JVal → Bool
  | .null => true
  | .undef => true
  | _ => false

/-! ## Records and the nested store map

JavaScript objects with string keys are modelled as ordered association lists
(insertion order = enumeration order).  The store is
`namespace (base) → collection (name) → id → record`, exactly the shape of the
plugin-level `entmap`. -/

/-- A stored or draft record: its public data fields, `id` among them when
set.  The `entity$` type tag is carried separately (`Ent.etype`). -/
abbrev Record := List (String × JVal)

abbrev Coll := List (String × Record)

abbrev BaseMap := List (String × Coll)

abbrev Entmap := List (String × BaseMap)

/-- First binding for `k`, as JavaScript property lookup. -/
def alookup {α : Type} (m : List (String × α)) (k : String) : Option α :=
  (m.find? (fun kv => kv.1 == k)).map (fun kv => kv.2)

/-- Property write `m[k] = v`: replaces the binding in place when present,
appends a new binding otherwise (JavaScript property-creation order). -/
def aset {α : Type} (m : List (String × α)) (k : String) (v : α) : List (String × α) :=
  if m.any (fun kv => kv.1 == k) then
    m.map (fun kv => if kv.1 == k then (k, v) else kv)
  else m ++ [(k, v)]

/-- `k in obj`. -/
def hasField (r : Record) (k : String) : Bool := r.any (fun kv => kv.1 == k)

/-- `r[k]`: `undefined` when the key is missing. -/
def getF (r : Record) (k : String) : JVal :=
  match alookup r k with
  | some v => v
  | none => JVal.undef

/-- `Object.assign(target, src)`: shallow overwrite, `src`'s keys win;
`target`'s key positions are kept, new keys append in `src` order. -/
def jsAssign (target src : Record) : Record :=
  src.foldl (fun acc kv => aset acc kv.1 kv.2) target

/-- `entmap[base] ? entmap[base][name] : null`. -/
def getColl (em : Entmap) (b n : String) : Option Coll :=
  (alookup em b).bind (fun bm => alookup bm n)

/-- Record under a given id, if any. -/
def getRec (em : Entmap) (b n i : String) : Option Record :=
  (getColl em b n).bind (fun c => alookup c i)

/-- `entmap[base] = entmap[base] || {}; entmap[base][name] = entmap[base][name] || {}`.
When both levels exist the assignments re-store the same references, so the
map is unchanged. -/
def ensure (em : Entmap) (b n : String) : Entmap :=
  match alookup em b with
  | none => em ++ [(b, [(n, [])])]
  | some bm =>
    match alookup bm n with
    | none => aset em b (bm ++ [(n, [])])
    | some _ => em

/-- `entmap[base][name][i] = r` (levels created lazily). -/
def putRec (em : Entmap) (b n i : String) (r : Record) : Entmap :=
  match alookup em b with
  | some bm =>
    match alookup bm n with
    | some coll => aset em b (aset bm n (aset coll i r))
    | none => aset em b (aset bm n [(i, r)])
  | none => em ++ [(b, [(n, [(i, r)])])]

/-- `delete entmap[base][name][i]`.  Only reached when the collection exists
(a record was just listed from it); totalised as a no-op otherwise. -/
def delRec (em : Entmap) (b n i : String) : Entmap :=
  match alookup em b with
  | some bm =>
    match alookup bm n with
    | some coll => aset em b (aset bm n (coll.filter (fun kv => kv.1 ≠ i)))
    | none => em
  | none => em

/-! ## The record matcher (`listents`, filter-object branch) -/

/-- The mongo-style constraint object a filter value may carry
(`listents` reads exactly the properties `$ne $gte $gt $lt $lte $in $nin`;
`inv`/`nin` model `$in`/`$nin`, which must be arrays to reach `indexOf`, with
`none` covering an absent or `null` operand).  Any other properties
(`other`) are never read. -/
structure Constraints where
  ne : JVal := .undef
  gte : JVal := .undef
  gt : JVal := .undef
  lt : JVal := .undef
  lte : JVal := .undef
  inv : Option (List JVal) := none
  nin : Option (List JVal) := none
  other : List (String × JVal) := []
deriving Repr

/-- `-1 !== xs.indexOf(ev)` — membership by strict equality. -/
def jIncludes (xs : List JVal) (ev : JVal) : Bool := xs.any (fun x => jStrictEq x ev)

/-- The disjunction of lines 146–153 of `mem-store.ts`: some present
constraint rejects the entity value `ev`. -/
def consViolated (c : Constraints) (ev : JVal) : Bool :=
  (!nullish c.ne && jLooseEq c.ne ev) ||
  (!nullish c.gte && jGt c.gte ev) ||
  (!nullish c.gt && jGe c.gt ev) ||
  (!nullish c.lt && jLe c.lt ev) ||
  (!nullish c.lte && jLt c.lte ev) ||
  (match c.inv with | some xs => !jIncludes xs ev | none => false) ||
  (match c.nin with | some xs => jIncludes xs ev | none => false)

/-- A filter value: an array (membership test), a constraint object, or a
scalar (strict equality); the three branches of lines 139–159. -/
inductive QFVal where
  | scalar (v : JVal)
  | arrv (xs : List JVal)
  | cons (c : Constraints)
deriving Repr

/-- The inner `for (let p in q)` loop with its `continue next_ent` early
exits: does entity `ent` survive every filter entry?  Keys containing `'$'`
are skipped. -/
def entPassesFilter (ent : Record) : List (String × QFVal) → Bool
  | [] => true
  | (p, qv) :: rest =>
    if p.toList.contains '$' then entPassesFilter ent rest
    else
      match qv with
      | .arrv xs =>
        if jIncludes xs (getF ent p) then entPassesFilter ent rest else false
      | .cons c =>
        if consViolated c (getF ent p) then false else entPassesFilter ent rest
      | .scalar v =>
        if jStrictEq v (getF ent p) then entPassesFilter ent rest else false

/-! ## The result pipeline (`listents`) -/

/-- A query: a single id string, an array of ids, or a filter object with its
reserved `$`-modifiers split out into structured fields (the modifier keys all
contain `'$'` and are skipped by the matcher, so keeping them separate from
`filter` is equivalent).  A `null` query would crash at `q.sort$` in the
source and is excluded from the type. -/
structure QSpec where
  filter : List (String × QFVal) := []
  /-- `sort$` as an ordered key/value list (numeric directive values); `[]`
  models an absent directive. -/
  sort : List (String × Int) := []
  /-- `skip$`. -/
  skip : Option Int := none
  /-- `limit$`. -/
  limit : Option Int := none
  /-- `fields$`. -/
  fields : Option (List String) := none
  /-- `upsert$` when it is an array (read only by `save`). -/
  upsert : Option (List String) := none
  /-- truthiness of `all$` (read only by `remove`). -/
  allQ : Bool := false
  /-- `load$ === true` (read only by `remove`). -/
  loadQ : Bool := false

inductive Query where
  | qid (i : String)
  | qids (ids : List String)
  | qobj (spec : QSpec)

/-- The modifier fields of the query; a string or array query carries none
(property access on it yields `undefined`). -/
def qmods : Query → QSpec
  | .qobj s => s
  | _ => {}

/-- The selection step of `listents` (lines 116–165).  Each element pairs the
record with `some i` when the code pushed the stored object under key `i`
itself (single-id branch, no `make$`), `none` when it pushed a `make$` copy. -/
def selectEnts (entset : Coll) : Query → List (Record × Option String)
  | .qid i =>
    match alookup entset i with
    | some r => [(r, some i)]
    | none => []
  | .qids ids => ids.filterMap (fun i => (alookup entset i).map (fun r => (r, none)))
  | .qobj spec =>
    (entset.filter (fun kv => entPassesFilter kv.2 spec.filter)).map (fun kv => (kv.2, none))

/-- The sort comparator of line 177:
`sd * (a[sf] < b[sf] ? -1 : a[sf] === b[sf] ? 0 : 1)`. -/
def sortCmp (sf : String) (sd : Int) (a b : Record) : Int :=
  sd * (if jLt (getF a sf) (getF b sf) then -1
        else if jStrictEq (getF a sf) (getF b sf) then 0 else 1)

/-- Stable insertion keeping an earlier-arriving element before equal later
ones. -/
def insertByCmp {α : Type} (cmp : α → α → Int) (x : α) : List α → List α
  | [] => [x]
  | y :: ys => if cmp x y ≤ 0 then x :: y :: ys else y :: insertByCmp cmp x ys

/-- Stable sort by a JavaScript-style comparator (`Array.prototype.sort` is
stable; for the consistent comparators arising here this insertion sort
computes the same result). -/
def sortByCmp {α : Type} (cmp : α → α → Int) : List α → List α
  | [] => []
  | x :: xs => insertByCmp cmp x (sortByCmp cmp xs)

/-- Lines 169–179: when `sort$` is present, sort by its first iterated key
(`for (sf in q.sort$) break`), descending exactly when that key's value is
negative. -/
def sortStage : List (String × Int) → List (Record × Option String) →
    List (Record × Option String)
  | [], l => l
  | (sf, sv) :: _, l =>
    sortByCmp (fun a b => sortCmp sf (if sv < 0 then -1 else 1) a.1 b.1) l

/-- Lines 182–184: `if (q.skip$ && q.skip$ > 0) list = list.slice(q.skip$)`. -/
def skipStage {α : Type} : Option Int → List α → List α
  | some k, l => if k ≠ 0 ∧ 0 < k then l.drop k.toNat else l
  | none, l => l

/-- Lines 187–189: `if (q.limit$ && q.limit$ >= 0) list = list.slice(0, q.limit$)`.
Note `limit$ = 0` is falsy, so the guard fails and nothing is truncated. -/
def limitStage {α : Type} : Option Int → List α → List α
  | some k, l => if k ≠ 0 ∧ 0 ≤ k then l.take k.toNat else l
  | none, l => l

/-- Lines 193–200: keep `id` and every field named in `fields$`, delete the
rest. -/
def pruneFields (fs : List String) (r : Record) : Record :=
  r.filter (fun kv => kv.1 == "id" || fs.contains kv.1)

/-- The selection step including the `entmap[base] ? ... : null` guard. -/
def selStage (em : Entmap) (b n : String) (q : Query) : List (Record × Option String) :=
  match getColl em b n with
  | some entset => selectEnts entset q
  | none => []

/-- The projection step on the result list. -/
def pruneStage : Option (List String) → List (Record × Option String) →
    List (Record × Option String)
  | some f, l => l.map (fun rp => (pruneFields f rp.1, rp.2))
  | none, l => l

/-- The projection step's effect on the store: `delete list[i][f]` acts on
the result objects in place, so on an aliased element (single-id branch) it
also rewrites the stored record.  (The combination is in fact unreachable: a
string query carries no `fields$`; see the frame theorem.) -/
def pruneWriteBack (b n : String) : Option (List String) →
    List (Record × Option String) → Entmap → Entmap
  | some f, l, em =>
    l.foldl (fun m rp =>
      match rp.2 with
      | some i => putRec m b n i (pruneFields f rp.1)
      | none => m) em
  | none, _, em => em

/-- The whole pipeline: select, sort, skip, limit, project. -/
def listents (em : Entmap) (b n : String) (q : Query) :
    List (Record × Option String) × Entmap :=
  let spec := qmods q
  let l := limitStage spec.limit (skipStage spec.skip (sortStage spec.sort (selStage em b n q)))
  (pruneStage spec.fields l, pruneWriteBack b n spec.fields l em)

/-- `load`: first pipeline result or nothing (`list[0] || null`). -/
def load (em : Entmap) (b n : String) (q : Query) :
    Option (Record × Option String) × Entmap :=
  let r := listents em b n q
  (r.1.head?, r.2)

/-- `list`: the full pipeline result. -/
def listOp (em : Entmap) (b n : String) (q : Query) :
    List (Record × Option String) × Entmap :=
  listents em b n q

/-- `q.all$` (truthiness). -/
def qAll : Query → Bool
  | .qobj s => s.allQ
  | _ => false

/-- `q.load$ === true`. -/
def qLoad : Query → Bool
  | .qobj s => s.loadQ
  | _ => false

/-- Delete the records with the given ids, left to right. -/
def removeIds (em : Entmap) (b n : String) (ids : List String) : Entmap :=
  ids.foldl (fun m i => delRec m b n i) em

/-- `remove` (lines 424–462): run the pipeline, delete all results when
`all$` is truthy and only the first otherwise, and return
`(!all && load && list[0]) || null`. -/
def remove (em : Entmap) (b n : String) (q : Query) :
    Option (Record × Option String) × Entmap :=
  let all := qAll q
  let ld := qLoad q
  let r := listents em b n q
  let l := if all then r.1 else r.1.take 1
  let em2 := l.foldl (fun m rp => delRec m b n (jToString (getF rp.1 "id"))) r.2
  ((if all then none else if ld then l.head? else none), em2)

/-! ## The save orchestrator -/

/-- A draft entity as `save` sees it.  `data` is `ent.data$` (public fields,
`id` among them when set); `idDollar` is the `ent.id$` property; `mergeDollar`
is `ent.merge$` restricted to its meaningful boolean-or-absent values;
`etype` is the `ent.entity$` canon string; `base`/`name` come from
`ent.canon$`.  A draft's `ent.data$(true)` and `ent.data$(false)` agree on
these public fields, so both are modelled by `data`. -/
structure Ent where
  data : Record := []
  idDollar : Option String := none
  mergeDollar : Option Bool := none
  etype : String := "-/-/foo"
  base : String := "undefined"
  name : String := "foo"

/-- Plugin options consulted by `save`: `options.merge` (absent = `none`) and
the id the configured `options.generate_id` function would return (`none`
models no generator / a `void 0` result, which delegates to the external
id-generation actor). -/
structure SaveOpts where
  merge : Option Bool := none
  genId : Option String := none

/-- `intern.is_new` (lines 44–46): `null != ent && null == ent.id`.  The
entity is never `null` on the `save` path modelled here. -/
def is_new (ent : Ent) : Bool := jLooseEq .null (getF ent.data "id")

/-- `intern.find_one_doc`: first document of the collection (in enumeration
order) all of whose filter fields are present and strictly equal; returns it
with its storage key. -/
def find_one_doc (em : Entmap) (b n : String) (filter : Record) :
    Option (String × Record) :=
  match getColl em b n with
  | none => none
  | some coll =>
    coll.find? (fun kv =>
      filter.all (fun fp => hasField kv.2 fp.1 && jStrictEq fp.2 (getF kv.2 fp.1)))

/-- `intern.update_one_doc`: find the first matching document and
`Object.assign` the new attributes into it in place (the store keeps the same
key, now bound to the overwritten record). -/
def update_one_doc (em : Entmap) (b n : String) (filter new_attrs : Record) :
    Option (Record × Entmap) :=
  match find_one_doc em b n filter with
  | some kv =>
    let updated := jsAssign kv.2 new_attrs
    some (updated, putRec em b n kv.1 updated)
  | none => none

/-- The outcome of a `save`: success carries the record handed to `reply` and
the store afterwards; `dupErr` is the `entity-id-exists` failure (entity type
and offending id); `genDelegated` marks the branch that sends a
`generate_id` message to the external actor. -/
inductive SaveRes where
  | ok (rec : Record) (store : Entmap)
  | dupErr (etype : String) (id : Option String) (store : Entmap)
  | genDelegated (store : Entmap)
deriving Repr

def SaveRes.isOk : SaveRes → Bool
  | .ok _ _ => true
  | _ => false

/-- The merge policy of lines 297–303, as one boolean. -/
def shouldMergeB (opts : SaveOpts) (ent : Ent) : Bool :=
  !((opts.merge ≠ some false ∧ ent.mergeDollar = some false) ∨
    (opts.merge = some false ∧ ent.mergeDollar ≠ some true): Bool)

/-- `do_save` (lines 278–344).  `id?` is the `id` argument (set into the
memento when defined), `isnew` the flag passed by `create_new`.  The
`seneca.util.deep` copy is the identity on the modelled values, and
`seneca.util.clean` on an array of field names is the identity. -/
def do_save (opts : SaveOpts) (em : Entmap) (ent : Ent)
    (qups : Option (List String)) (id? : Option String) (isnew : Bool) : SaveRes :=
  let mement := match id? with
    | some i => aset ent.data "id" (.str i)
    | none => ent.data
  let em1 := ensure em ent.base ent.name
  let key := jToString (getF mement "id")
  let prev := getRec em1 ent.base ent.name key
  if isnew ∧ prev.isSome then .dupErr ent.etype id? em1
  else
    let mement := if shouldMergeB opts ent then jsAssign (prev.getD []) mement else mement
    let commit : SaveRes := .ok mement (putRec em1 ent.base ent.name key mement)
    if is_new ent then
      match qups with
      | some upsert_on =>
        if upsert_on.length > 0 ∧ upsert_on.all (fun p => hasField ent.data p) then
          let match_by : Record := upsert_on.map (fun p => (p, getF ent.data p))
          match update_one_doc em1 ent.base ent.name match_by ent.data with
          | some r => .ok r.1 r.2
          | none => commit
        else commit
      | none => commit
    else commit

/-- `create_new` (lines 348–386): explicit `ent.id$` first, then the local
generator, else delegate to the external `generate_id` actor.  (`delete
ent.id$` is dropped: `do_save` never reads `id$`.) -/
def create_new (opts : SaveOpts) (em : Entmap) (ent : Ent)
    (qups : Option (List String)) : SaveRes :=
  match ent.idDollar with
  | some i => do_save opts em ent qups (some i) true
  | none =>
    match opts.genId with
    | some i => do_save opts em ent qups (some i) true
    | none => .genDelegated em

/-- `save` (lines 254–387): create when the draft is new, plain `do_save`
otherwise.  `qups` is `msg.q.upsert$` when that is an array. -/
def save (opts : SaveOpts) (em : Entmap) (ent : Ent)
    (qups : Option (List String)) : SaveRes :=
  if is_new ent then create_new opts em ent qups
  else do_save opts em ent qups none false

/-- The three-tier id resolution, as far as it stays local: `ent.id$`, else
the configured generator. -/
def resolveId (opts : SaveOpts) (ent : Ent) : Option String :=
  match ent.idDollar with
  | some i => some i
  | none => opts.genId

/-! ## Specification-side definitions

For the refinement claims these restate the specification's wording as
declarative predicates, to be proved equal to the translated code. -/

/-- Following the specification's wording for an object filter value: each
recognised operator with a non-null operand must accept the record value
(`$ne` not-equal, `$gte`/`$gt`/`$lt`/`$lte` bounds, `$in` inclusion, `$nin`
exclusion); operators with null/absent operands impose nothing. -/
def spec_consPass (c : Constraints) (ev : JVal) : Bool :=
  (nullish c.ne || !jLooseEq c.ne ev) &&
  (nullish c.gte || !jGt c.gte ev) &&
  (nullish c.gt || !jGe c.gt ev) &&
  (nullish c.lt || !jLe c.lt ev) &&
  (nullish c.lte || !jLt c.lte ev) &&
  (match c.inv with | some xs => jIncludes xs ev | none => true) &&
  (match c.nin with | some xs => !jIncludes xs ev | none => true)

/-- Following the specification's wording for one filter entry: an array
value is a membership test, an object value is operator evaluation, any
other (scalar) value is strict equality. -/
def spec_qfvalPass (qv : QFVal) (ev : JVal) : Bool :=
  match qv with
  | .arrv xs => jIncludes xs ev
  | .cons c => spec_consPass c ev
  | .scalar v => jStrictEq v ev

/-- Following the specification's wording for the whole matcher: a record
matches iff every non-reserved key (no `'$'` marker) passes. -/
def spec_matches (r : Record) (filter : List (String × QFVal)) : Bool :=
  filter.all (fun pq => pq.1.toList.contains '$' || spec_qfvalPass pq.2 (getF r pq.1))

/-! ## Association-list lemmas -/

theorem alookup_append_self {α : Type} (m : List (String × α)) (k : String) (v : α)
    (h : m.any (fun kv => kv.1 == k) = false) :
    alookup (m ++ [(k, v)]) k = some v := by
  induction m with
  | nil => simp [alookup]
  | cons a m ih =>
    simp only [List.any_cons, Bool.or_eq_false_iff] at h
    simpa [alookup, List.find?, h.1] using ih h.2

theorem alookup_mapset_self {α : Type} (m : List (String × α)) (k : String) (v : α) :
    alookup (m.map (fun kv => if kv.1 == k then (k, v) else kv)) k =
      if m.any (fun kv => kv.1 == k) then some v else none := by
  induction m with
  | nil => simp [alookup]
  | cons a m ih =>
    by_cases h : a.1 = k
    · simp [alookup, List.find?, h, ih]
    · have hb : (a.1 == k) = false := by simpa using h
      simp only [List.map_cons, hb, if_false, List.any_cons, Bool.false_or]
      simpa [alookup, List.find?, hb] using ih

theorem alookup_aset {α : Type} (m : List (String × α)) (k : String) (v : α) :
    alookup (aset m k v) k = some v := by
  unfold aset
  by_cases h : m.any (fun kv => kv.1 == k)
  · rw [if_pos h, alookup_mapset_self, if_pos h]
  · rw [if_neg h, alookup_append_self m k v (by simp only [Bool.not_eq_true] at h; exact h)]

theorem alookup_mapset_ne {α : Type} (m : List (String × α)) (k k' : String) (v : α)
    (h : k ≠ k') :
    alookup (m.map (fun kv => if kv.1 == k then (k, v) else kv)) k' = alookup m k' := by
  induction m with
  | nil => rfl
  | cons a m ih =>
    by_cases ha : a.1 = k
    · have hb : (a.1 == k) = true := by simpa using ha
      have hk : (k == k') = false := by simpa using h
      have ha' : (a.1 == k') = false := by simp [ha]; simpa using h
      simpa [alookup, List.find?, hb, hk, ha'] using ih
    · have hb : (a.1 == k) = false := by simpa using ha
      by_cases hc : a.1 = k'
      · have hcb : (a.1 == k') = true := by simpa using hc
        simp [alookup, List.find?, hb, hcb]
      · have hcb : (a.1 == k') = false := by simpa using hc
        simpa [alookup, List.find?, hb, hcb] using ih

theorem alookup_append_ne {α : Type} (m : List (String × α)) (k k' : String) (v : α)
    (h : k ≠ k') :
    alookup (m ++ [(k, v)]) k' = alookup m k' := by
  induction m with
  | nil => simp [alookup, List.find?, show (k == k') = false by simpa using h]
  | cons a m ih =>
    by_cases hc : a.1 = k'
    · simp [alookup, List.find?, hc]
    · have hcb : (a.1 == k') = false := by simpa using hc
      simpa [alookup, List.find?, hcb] using ih

theorem alookup_aset_ne {α : Type} (m : List (String × α)) (k k' : String) (v : α)
    (h : k ≠ k') :
    alookup (aset m k v) k' = alookup m k' := by
  unfold aset
  by_cases hm : m.any (fun kv => kv.1 == k)
  · rw [if_pos hm, alookup_mapset_ne _ _ _ _ h]
  · rw [if_neg hm, alookup_append_ne _ _ _ _ h]

theorem getF_aset (r : Record) (k : String) (v : JVal) : getF (aset r k v) k = v := by
  simp [getF, alookup_aset]

theorem getF_aset_ne (r : Record) (k k' : String) (v : JVal) (h : k ≠ k') :
    getF (aset r k v) k' = getF r k' := by
  simp [getF, alookup_aset_ne _ _ _ _ h]

theorem alookup_eq_none {α : Type} (m : List (String × α)) (k : String)
    (h : m.any (fun kv => kv.1 == k) = false) :
    alookup m k = none := by
  induction m with
  | nil => rfl
  | cons a m ih =>
    simp only [List.any_cons, Bool.or_eq_false_iff] at h
    simpa [alookup, List.find?, h.1] using ih h.2

/-! ## `Object.assign` lemmas -/

/-- Key uniqueness of an association list (JavaScript objects cannot carry
duplicate keys, so drafts and stored records always satisfy this). -/
def nodupKeysB {α : Type} : List (String × α) → Bool
  | [] => true
  | kv :: rest => !(rest.any (fun kv2 => kv2.1 == kv.1)) && nodupKeysB rest

theorem getF_jsAssign_not_mem (t s : Record) (k : String) (h : hasField s k = false) :
    getF (jsAssign t s) k = getF t k := by
  induction s generalizing t with
  | nil => rfl
  | cons a s ih =>
    simp only [hasField, List.any_cons, Bool.or_eq_false_iff] at h
    have ha : a.1 ≠ k := by simpa using h.1
    show getF (jsAssign (aset t a.1 a.2) s) k = getF t k
    rw [ih (aset t a.1 a.2) (by simpa [hasField] using h.2), getF_aset_ne _ _ _ _ ha]

theorem getF_jsAssign (t s : Record) (k : String) (hnd : nodupKeysB s = true) :
    getF (jsAssign t s) k = if hasField s k then getF s k else getF t k := by
  induction s generalizing t with
  | nil => simp [hasField, jsAssign]
  | cons a s ih =>
    simp only [nodupKeysB, Bool.and_eq_true, Bool.not_eq_true'] at hnd
    show getF (jsAssign (aset t a.1 a.2) s) k = _
    by_cases hk : a.1 = k
    · subst hk
      have hs : hasField s a.1 = false := hnd.1
      rw [getF_jsAssign_not_mem _ _ _ hs, getF_aset]
      simp [hasField, getF, alookup, List.find?]
    · have hb : (a.1 == k) = false := by simpa using hk
      rw [ih (aset t a.1 a.2) hnd.2, getF_aset_ne _ _ _ _ hk]
      have hh : hasField ((a.1, a.2) :: s) k = hasField s k := by
        simp [hasField, List.any_cons, hb]
      have hg : getF ((a.1, a.2) :: s) k = getF s k := by
        simp [getF, alookup, List.find?, hb]
      rw [show (a :: s : Record) = (a.1, a.2) :: s from rfl, hh, hg]

/-! ## Matcher refinement (claims C6, C10) -/

theorem not_consViolated (c : Constraints) (ev : JVal) :
    (!consViolated c ev) = spec_consPass c ev := by
  cases hi : c.inv <;> cases hn : c.nin <;>
    simp [consViolated, spec_consPass, hi, hn, Bool.not_or, Bool.not_and, Bool.not_not]

theorem entPassesFilter_eq_spec (r : Record) (f : List (String × QFVal)) :
    entPassesFilter r f = spec_matches r f := by
  induction f with
  | nil => rfl
  | cons pq rest ih =>
    obtain ⟨p, qv⟩ := pq
    show entPassesFilter r ((p, qv) :: rest) = spec_matches r ((p, qv) :: rest)
    have hall : spec_matches r ((p, qv) :: rest) =
        ((p.toList.contains '$' || spec_qfvalPass qv (getF r p)) && spec_matches r rest) := rfl
    rw [hall]
    unfold entPassesFilter
    cases hp : p.toList.contains '$' with
    | true => simp [ih]
    | false =>
      simp only [Bool.false_or]
      cases qv with
      | scalar v =>
        cases hs : jStrictEq v (getF r p) with
        | true => simp [spec_qfvalPass, hs, ih]
        | false => simp [spec_qfvalPass, hs]
      | arrv xs =>
        cases hs : jIncludes xs (getF r p) with
        | true => simp [spec_qfvalPass, hs, ih]
        | false => simp [spec_qfvalPass, hs]
      | cons c =>
        have hnc := not_consViolated c (getF r p)
        cases hs : consViolated c (getF r p) with
        | true =>
          rw [hs] at hnc
          simp [spec_qfvalPass, ← hnc, hs]
        | false =>
          rw [hs] at hnc
          simp [spec_qfvalPass, ← hnc, hs, ih]

/-- C6: the record matcher accepts a record iff every non-reserved key (no
`'$'` marker) passes, where an array filter value is a membership test, an
object filter value is evaluated by the comparison operators `$ne` `$gte`
`$gt` `$lt` `$lte` `$in` `$nin` (a failing operator rejects, unknown operator
keys are ignored and never reject), and any scalar filter value requires
strict equality without type coercion. -/
theorem c6_matcher_iff_spec :
    (∀ (r : Record) (f : List (String × QFVal)), entPassesFilter r f = spec_matches r f) ∧
    (∀ (c : Constraints) (o : List (String × JVal)) (ev : JVal),
      consViolated { c with other := o } ev = consViolated c ev) := by
  refine ⟨entPassesFilter_eq_spec, ?_⟩
  intro c o ev
  rfl

/-- C10: comparison operators with null (or absent) operands are ignored; a
constraint object all of whose recognised operands are nullish rejects
nothing, so a filter entry carrying only such operators accepts every
record. -/
theorem c10_null_operands_ignored :
    ∀ (c : Constraints) (ev : JVal) (r : Record) (p : String),
      nullish c.ne = true → nullish c.gte = true → nullish c.gt = true →
      nullish c.lt = true → nullish c.lte = true → c.inv = none → c.nin = none →
      consViolated c ev = false ∧ entPassesFilter r [(p, .cons c)] = true := by
  intro c ev r p h1 h2 h3 h4 h5 h6 h7
  have hv : consViolated c ev = false := by
    simp [consViolated, h1, h2, h3, h4, h5, h6, h7]
  refine ⟨hv, ?_⟩
  have hv2 : consViolated c (getF r p) = false := by
    simp [consViolated, h1, h2, h3, h4, h5, h6, h7]
  unfold entPassesFilter
  cases hp : p.toList.contains '$' <;> simp [hp, hv2, entPassesFilter]

/-- Witness for C10 at a concrete constraint object and record. -/
theorem c10_witness :
    consViolated { ne := JVal.null } (JVal.num 7) = false ∧
      entPassesFilter [("a", JVal.num 7)] [("a", .cons { ne := JVal.null })] = true :=
  c10_null_operands_ignored { ne := JVal.null } (JVal.num 7) [("a", JVal.num 7)] "a"
    rfl rfl rfl rfl rfl rfl rfl

/-! ## Sorting lemmas -/

theorem insertByCmp_perm {α : Type} (cmp : α → α → Int) (x : α) (l : List α) :
    List.Perm (insertByCmp cmp x l) (x :: l) := by
  induction l with
  | nil => exact List.Perm.refl _
  | cons y ys ih =>
    unfold insertByCmp
    by_cases hc : cmp x y ≤ 0
    · rw [if_pos hc]
    · rw [if_neg hc]
      exact List.Perm.trans (List.Perm.cons y ih) (List.Perm.swap x y ys)

theorem sortByCmp_perm {α : Type} (cmp : α → α → Int) (l : List α) :
    List.Perm (sortByCmp cmp l) l := by
  induction l with
  | nil => exact List.Perm.refl _
  | cons x xs ih =>
    exact List.Perm.trans (insertByCmp_perm cmp x (sortByCmp cmp xs)) (List.Perm.cons x ih)

theorem mem_of_mem_sortByCmp {α : Type} {cmp : α → α → Int} {x : α} {l : List α}
    (h : x ∈ sortByCmp cmp l) : x ∈ l :=
  (sortByCmp_perm cmp l).mem_iff.mp h

theorem mem_of_mem_sortStage {s : List (String × Int)} {rp : Record × Option String}
    {l : List (Record × Option String)} (h : rp ∈ sortStage s l) : rp ∈ l := by
  cases s with
  | nil => exact h
  | cons sv rest => exact mem_of_mem_sortByCmp h

theorem mem_of_mem_skipStage {α : Type} {sk : Option Int} {x : α} {l : List α}
    (h : x ∈ skipStage sk l) : x ∈ l := by
  cases sk with
  | none => exact h
  | some k =>
    rw [show skipStage (some k) l = if k ≠ 0 ∧ 0 < k then l.drop k.toNat else l from rfl] at h
    by_cases hc : k ≠ 0 ∧ 0 < k
    · rw [if_pos hc] at h
      exact List.mem_of_mem_drop h
    · rw [if_neg hc] at h
      exact h

theorem mem_of_mem_limitStage {α : Type} {lm : Option Int} {x : α} {l : List α}
    (h : x ∈ limitStage lm l) : x ∈ l := by
  cases lm with
  | none => exact h
  | some k =>
    rw [show limitStage (some k) l = if k ≠ 0 ∧ 0 ≤ k then l.take k.toNat else l from rfl] at h
    by_cases hc : k ≠ 0 ∧ 0 ≤ k
    · rw [if_pos hc] at h
      exact List.mem_of_mem_take h
    · rw [if_neg hc] at h
      exact h

/-! ## Frame property of the pipeline -/

/-- Every result of an id-list or filter-object selection is a `make$` copy. -/
theorem selStage_refs_none (em : Entmap) (b n : String) (q : Query)
    (hq : ∀ i, q ≠ .qid i) :
    ∀ rp ∈ selStage em b n q, rp.2 = (none : Option String) := by
  intro rp hrp
  unfold selStage at hrp
  cases hcoll : getColl em b n with
  | none =>
    rw [hcoll] at hrp
    exact absurd hrp (by simp)
  | some entset =>
    rw [hcoll] at hrp
    cases q with
    | qid i => exact absurd rfl (hq i)
    | qids ids =>
      simp only [selectEnts] at hrp
      obtain ⟨i, _, hmap⟩ := List.mem_filterMap.mp hrp
      cases halo : alookup entset i with
      | none => rw [halo] at hmap; simp at hmap
      | some r =>
        rw [halo] at hmap
        rw [show Option.map (fun r => (r, (none : Option String))) (some r) =
          some (r, none) from rfl] at hmap
        injection hmap with h
        rw [← h]
    | qobj spec =>
      simp only [selectEnts] at hrp
      obtain ⟨kv, _, hkv⟩ := List.mem_map.mp hrp
      rw [← hkv]

theorem pruneWriteBack_refs_none (b n : String) (fs : Option (List String))
    (L : List (Record × Option String)) (em : Entmap)
    (hnone : ∀ rp ∈ L, rp.2 = (none : Option String)) :
    pruneWriteBack b n fs L em = em := by
  cases fs with
  | none => rfl
  | some f =>
    induction L generalizing em with
    | nil => rfl
    | cons rp L ih =>
      have h2 : rp.2 = none := hnone rp (by simp)
      show List.foldl _ _ (rp :: L) = em
      simp only [List.foldl_cons, h2]
      exact ih em (fun x hx => hnone x (List.mem_cons_of_mem _ hx))

/-- The pipeline never changes the store: the only store-effecting step is
the projection write-back on an aliased element, and aliased elements arise
only from single-id string queries, which carry no `fields$`. -/
theorem listents_store_unchanged (em : Entmap) (b n : String) (q : Query) :
    (listents em b n q).2 = em := by
  cases q with
  | qid i => rfl
  | qids ids => rfl
  | qobj spec =>
    have hnone : ∀ rp ∈ limitStage spec.limit (skipStage spec.skip
        (sortStage spec.sort (selStage em b n (.qobj spec)))), rp.2 = (none : Option String) := by
      intro rp hrp
      exact selStage_refs_none em b n (.qobj spec) (fun i h => by cases h) rp
        (mem_of_mem_sortStage (mem_of_mem_skipStage (mem_of_mem_limitStage hrp)))
    exact pruneWriteBack_refs_none b n spec.fields _ em hnone

theorem pruneStage_refs_none (fs : Option (List String))
    (l : List (Record × Option String))
    (h : ∀ x ∈ l, x.2 = (none : Option String)) :
    ∀ rp ∈ pruneStage fs l, rp.2 = (none : Option String) := by
  intro rp hrp
  cases fs with
  | none => exact h rp hrp
  | some f =>
    obtain ⟨x, hx, hmap⟩ := List.mem_map.mp hrp
    rw [← hmap]
    exact h x hx

theorem listents_refs_none (em : Entmap) (b n : String) (q : Query)
    (hq : ∀ i, q ≠ .qid i) :
    ∀ rp ∈ (listents em b n q).1, rp.2 = (none : Option String) := by
  intro rp hrp
  have h0 : ∀ x ∈ limitStage (qmods q).limit (skipStage (qmods q).skip
      (sortStage (qmods q).sort (selStage em b n q))), x.2 = (none : Option String) := by
    intro x hx
    exact selStage_refs_none em b n q hq x
      (mem_of_mem_sortStage (mem_of_mem_skipStage (mem_of_mem_limitStage hx)))
  exact pruneStage_refs_none _ _ h0 rp hrp

/-! ## Claim C1: pipeline purity and result independence -/

/-- A one-record store used to exhibit the single-id aliasing. -/
def c1em : Entmap := [("b", [("n", [("r0", [("id", JVal.str "r0"), ("x", JVal.num 1)])])])]

/-- C1 counterexample: on a single-id (string) query the pipeline hands back
the stored record itself — the element is tagged with its storage key, i.e.
it is a live reference, not an independent copy (`make$` is skipped on this
branch).  This falsifies "every record returned to the caller is an
independent copy rather than a live reference to the stored record". -/
theorem c1_counterexample :
    (listents c1em "b" "n" (.qid "r0")).1 =
      [([("id", JVal.str "r0"), ("x", JVal.num 1)], some "r0")] ∧
    ((listents c1em "b" "n" (.qid "r0")).1.all (fun rp => rp.2.isNone)) = false := by
  exact ⟨rfl, rfl⟩

/-- C1 amended: the pipeline never changes the Collection Store (for any
query shape), and every record returned by an id-list or filter-object query
is an independent copy; but a single-id string query returns the stored
record itself (a live reference) — such a query can carry no projection
list, so the store still ends unchanged. -/
theorem c1_amended :
    (∀ (em : Entmap) (b n : String) (q : Query), (listents em b n q).2 = em) ∧
    (∀ (em : Entmap) (b n : String) (ids : List String),
      ((listents em b n (.qids ids)).1.all (fun rp => rp.2.isNone)) = true) ∧
    (∀ (em : Entmap) (b n : String) (spec : QSpec),
      ((listents em b n (.qobj spec)).1.all (fun rp => rp.2.isNone)) = true) := by
  refine ⟨listents_store_unchanged, ?_, ?_⟩
  · intro em b n ids
    refine List.all_eq_true.mpr (fun rp hrp => ?_)
    rw [listents_refs_none em b n (.qids ids) (fun i h => by cases h) rp hrp]
    rfl
  · intro em b n spec
    refine List.all_eq_true.mpr (fun rp hrp => ?_)
    rw [listents_refs_none em b n (.qobj spec) (fun i h => by cases h) rp hrp]
    rfl

/-! ## Claim C2: skip and limit -/

/-- A two-record store. -/
def c2em : Entmap :=
  [("b", [("n", [("r1", [("id", JVal.str "r1")]), ("r2", [("id", JVal.str "r2")])])])]

/-- C2 counterexample: a present `limit$` of 0 does not yield an empty result
list — `q.limit$ && q.limit$ >= 0` is falsy at 0, so the full list is
returned. -/
theorem c2_counterexample :
    ((listents c2em "b" "n" (.qobj { limit := some 0 })).1).length = 2 ∧
    ((listents c2em "b" "n" (.qobj { limit := some 0 })).1).length ≠ 0 := by
  refine ⟨rfl, ?_⟩
  rw [show ((listents c2em "b" "n" (.qobj { limit := some 0 })).1).length = 2 from rfl]
  decide

/-- Build a query spec from all its parts (positional). -/
def mkSpec (fil : List (String × QFVal)) (srt : List (String × Int))
    (sk lm : Option Int) (fs ups : Option (List String)) (aq lq : Bool) : QSpec :=
  { filter := fil, sort := srt, skip := sk, limit := lm,
    fields := fs, upsert := ups, allQ := aq, loadQ := lq }

/-- C2 amended: a present positive skip count drops that many results; a
present limit of at least 1 truncates the (sorted, skipped) results to that
many; a present limit of 0 is ignored (the guard `q.limit$ && ...` is falsy),
leaving the result list untruncated. -/
theorem c2_amended :
    ∀ (em : Entmap) (b n : String) (fil : List (String × QFVal))
      (srt : List (String × Int)) (sk : Option Int) (fs ups : Option (List String))
      (aq lq : Bool) (k m : Int),
      (0 < k →
        (listents em b n (.qobj (mkSpec fil srt (some k) none fs ups aq lq))).1 =
          ((listents em b n (.qobj (mkSpec fil srt none none fs ups aq lq))).1).drop k.toNat) ∧
      (1 ≤ m →
        (listents em b n (.qobj (mkSpec fil srt sk (some m) fs ups aq lq))).1 =
          ((listents em b n (.qobj (mkSpec fil srt sk none fs ups aq lq))).1).take m.toNat) ∧
      (listents em b n (.qobj (mkSpec fil srt sk (some 0) fs ups aq lq)) =
        listents em b n (.qobj (mkSpec fil srt sk none fs ups aq lq))) := by
  intro em b n fil srt sk fs ups aq lq k m
  refine ⟨?_, ?_, ?_⟩
  · intro h1
    show pruneStage fs (limitStage none (skipStage (some k) (sortStage srt
        (selStage em b n (.qobj (mkSpec fil srt (some k) none fs ups aq lq)))))) =
      (pruneStage fs (limitStage none (skipStage none (sortStage srt
        (selStage em b n (.qobj (mkSpec fil srt (some k) none fs ups aq lq))))))).drop k.toNat
    rw [show skipStage (some k) (sortStage srt
        (selStage em b n (.qobj (mkSpec fil srt (some k) none fs ups aq lq)))) =
      if k ≠ 0 ∧ 0 < k then (sortStage srt
        (selStage em b n (.qobj (mkSpec fil srt (some k) none fs ups aq lq)))).drop k.toNat
      else sortStage srt
        (selStage em b n (.qobj (mkSpec fil srt (some k) none fs ups aq lq))) from rfl]
    rw [if_pos ⟨by omega, h1⟩]
    cases fs with
    | none => rfl
    | some f =>
      show List.map (fun rp => (pruneFields f rp.1, rp.2)) (List.drop k.toNat (sortStage srt
          (selStage em b n (.qobj (mkSpec fil srt (some k) none (some f) ups aq lq))))) =
        List.drop k.toNat (List.map (fun rp => (pruneFields f rp.1, rp.2)) (sortStage srt
          (selStage em b n (.qobj (mkSpec fil srt (some k) none (some f) ups aq lq)))))
      rw [List.map_drop]
  · intro h1
    show pruneStage fs (limitStage (some m) (skipStage sk (sortStage srt
        (selStage em b n (.qobj (mkSpec fil srt sk (some m) fs ups aq lq)))))) =
      (pruneStage fs (limitStage none (skipStage sk (sortStage srt
        (selStage em b n (.qobj (mkSpec fil srt sk (some m) fs ups aq lq))))))).take m.toNat
    rw [show limitStage (some m) (skipStage sk (sortStage srt
        (selStage em b n (.qobj (mkSpec fil srt sk (some m) fs ups aq lq))))) =
      if m ≠ 0 ∧ 0 ≤ m then (skipStage sk (sortStage srt
        (selStage em b n (.qobj (mkSpec fil srt sk (some m) fs ups aq lq))))).take m.toNat
      else skipStage sk (sortStage srt
        (selStage em b n (.qobj (mkSpec fil srt sk (some m) fs ups aq lq)))) from rfl]
    rw [if_pos ⟨by omega, by omega⟩]
    cases fs with
    | none => rfl
    | some f =>
      show List.map (fun rp => (pruneFields f rp.1, rp.2)) (List.take m.toNat (skipStage sk
          (sortStage srt (selStage em b n (.qobj (mkSpec fil srt sk (some m) (some f) ups aq lq)))))) =
        List.take m.toNat (List.map (fun rp => (pruneFields f rp.1, rp.2)) (skipStage sk
          (sortStage srt (selStage em b n (.qobj (mkSpec fil srt sk (some m) (some f) ups aq lq))))))
      rw [List.map_take]
  · rfl

/-- Witness for C2's amended statement: `limit$ = 1` truncates to one
result and `skip$ = 1` drops one result on the two-record store. -/
theorem c2_witness :
    ((listents c2em "b" "n" (.qobj { limit := some 1 })).1 =
      ((listents c2em "b" "n" (.qobj { limit := none })).1).take (1 : Int).toNat) ∧
    ((listents c2em "b" "n" (.qobj { skip := some 1 })).1 =
      ((listents c2em "b" "n" (.qobj { skip := none })).1).drop (1 : Int).toNat) := by
  constructor
  · exact (c2_amended c2em "b" "n" [] [] none none none false false 5 1).2.1 (by norm_num)
  · exact (c2_amended c2em "b" "n" [] [] none none none false false 1 5).1 (by norm_num)

/-! ## Claim C7: sort semantics -/

theorem insertByCmp_pairwise {α : Type} (cmp : α → α → Int) (P : α → Prop)
    (h1 : ∀ a b, P a → P b → ¬ cmp a b ≤ 0 → cmp b a ≤ 0)
    (h2 : ∀ a b c, P a → P b → P c → cmp a b ≤ 0 → cmp b c ≤ 0 → cmp a c ≤ 0)
    (x : α) (hx : P x) :
    ∀ (l : List α), (∀ a ∈ l, P a) →
      l.Pairwise (fun a b => cmp a b ≤ 0) →
      (insertByCmp cmp x l).Pairwise (fun a b => cmp a b ≤ 0) := by
  intro l
  induction l with
  | nil =>
    intro _ _
    simp [insertByCmp]
  | cons y ys ih =>
    intro hl hpw
    rw [List.pairwise_cons] at hpw
    obtain ⟨hy, hys⟩ := hpw
    show (if cmp x y ≤ 0 then x :: y :: ys else y :: insertByCmp cmp x ys).Pairwise _
    by_cases hc : cmp x y ≤ 0
    · rw [if_pos hc]
      refine List.Pairwise.cons ?_ (List.Pairwise.cons hy hys)
      intro z hz
      rcases List.mem_cons.mp hz with rfl | hz'
      · exact hc
      · exact h2 x y z hx (hl y (by simp)) (hl z (by simp [hz'])) hc (hy z hz')
    · rw [if_neg hc]
      refine List.Pairwise.cons ?_ (ih (fun a ha => hl a (by simp [ha])) hys)
      intro z hz
      rcases List.mem_cons.mp ((insertByCmp_perm cmp x ys).mem_iff.mp hz) with hzx | hz'
      · rw [hzx]
        exact h1 x y hx (hl y (by simp)) hc
      · exact hy z hz'

theorem sortByCmp_pairwise {α : Type} (cmp : α → α → Int) (P : α → Prop)
    (h1 : ∀ a b, P a → P b → ¬ cmp a b ≤ 0 → cmp b a ≤ 0)
    (h2 : ∀ a b c, P a → P b → P c → cmp a b ≤ 0 → cmp b c ≤ 0 → cmp a c ≤ 0) :
    ∀ (l : List α), (∀ a ∈ l, P a) →
      (sortByCmp cmp l).Pairwise (fun a b => cmp a b ≤ 0) := by
  intro l
  induction l with
  | nil =>
    intro _
    simp [sortByCmp]
  | cons x xs ih =>
    intro hl
    show (insertByCmp cmp x (sortByCmp cmp xs)).Pairwise _
    refine insertByCmp_pairwise cmp P h1 h2 x (hl x (by simp)) _ ?_
      (ih (fun a ha => hl a (by simp [ha])))
    intro a ha
    exact hl a (by simp [(sortByCmp_perm cmp xs).mem_iff.mp ha])

/-- The comparator of line 177 on two records whose sort-field values are
numbers. -/
theorem sortCmp_num (sf : String) (sd : Int) (a b : Record) (x y : Int)
    (hx : getF a sf = .num x) (hy : getF b sf = .num y) :
    sortCmp sf sd a b = sd * (if x < y then -1 else if x = y then 0 else 1) := by
  unfold sortCmp
  rw [hx, hy]
  rw [show jLt (JVal.num x) (JVal.num y) = decide (x < y) from rfl,
      show jStrictEq (JVal.num x) (JVal.num y) = (x == y) from rfl]
  by_cases hxy : x < y
  · simp [hxy]
  · by_cases heq : x = y <;> simp [hxy, heq]

/-- Ascending order on a sort field, as the claim states it (on the numeric
values carried by that field). -/
def ascByField (sf : String) (a b : Record × Option String) : Prop :=
  ∀ x y : Int, getF a.1 sf = .num x → getF b.1 sf = .num y → x ≤ y

/-- Descending order on a sort field. -/
def descByField (sf : String) (a b : Record × Option String) : Prop :=
  ∀ x y : Int, getF a.1 sf = .num x → getF b.1 sf = .num y → y ≤ x

/-- C7: with a sort directive present, only the first iterated key of the
directive matters (any further entries are ignored); sorting happens before
skip, limit and projection; the sorted list is a permutation of the selected
records; and on numeric sort-field values the order is ascending when the
directive's value is non-negative and descending otherwise. -/
theorem c7_sort_semantics :
    ∀ (em : Entmap) (b n : String) (spec : QSpec) (sf : String) (sv : Int)
      (rest : List (String × Int)),
      spec.sort = (sf, sv) :: rest →
      (sortStage spec.sort (selStage em b n (.qobj spec)) =
        sortStage [(sf, sv)] (selStage em b n (.qobj spec))) ∧
      ((listents em b n (.qobj spec)).1 =
        pruneStage spec.fields (limitStage spec.limit (skipStage spec.skip
          (sortStage spec.sort (selStage em b n (.qobj spec)))))) ∧
      List.Perm (sortStage spec.sort (selStage em b n (.qobj spec)))
        (selStage em b n (.qobj spec)) ∧
      ((∀ rp ∈ selStage em b n (.qobj spec), ∃ x : Int, getF rp.1 sf = .num x) →
        (0 ≤ sv →
          (sortStage spec.sort (selStage em b n (.qobj spec))).Pairwise (ascByField sf)) ∧
        (sv < 0 →
          (sortStage spec.sort (selStage em b n (.qobj spec))).Pairwise (descByField sf))) := by
  intro em b n spec sf sv rest hsort
  refine ⟨by rw [hsort]; exact rfl, rfl, ?_, ?_⟩
  · rw [hsort]
    exact sortByCmp_perm _ _
  · intro hnum
    constructor
    · intro hsv
      rw [hsort]
      show (sortByCmp (fun a b => sortCmp sf (if sv < 0 then -1 else 1) a.1 b.1)
        (selStage em b n (.qobj spec))).Pairwise (ascByField sf)
      rw [if_neg (by omega)]
      have key := sortByCmp_pairwise
        (fun a b : Record × Option String => sortCmp sf 1 a.1 b.1)
        (fun rp => ∃ x : Int, getF rp.1 sf = .num x)
        (by
          intro a b hPa hPb hab
          obtain ⟨x, hx⟩ := hPa
          obtain ⟨y, hy⟩ := hPb
          have hab' : ¬ sortCmp sf 1 a.1 b.1 ≤ 0 := hab
          show sortCmp sf 1 b.1 a.1 ≤ 0
          rw [sortCmp_num sf 1 a.1 b.1 x y hx hy] at hab'
          rw [sortCmp_num sf 1 b.1 a.1 y x hy hx]
          simp only [one_mul] at hab' ⊢
          split_ifs at hab' ⊢ <;> omega)
        (by
          intro a b c hPa hPb hPc hab hbc
          obtain ⟨x, hx⟩ := hPa
          obtain ⟨y, hy⟩ := hPb
          obtain ⟨z, hz⟩ := hPc
          have hab' : sortCmp sf 1 a.1 b.1 ≤ 0 := hab
          have hbc' : sortCmp sf 1 b.1 c.1 ≤ 0 := hbc
          show sortCmp sf 1 a.1 c.1 ≤ 0
          rw [sortCmp_num sf 1 a.1 b.1 x y hx hy] at hab'
          rw [sortCmp_num sf 1 b.1 c.1 y z hy hz] at hbc'
          rw [sortCmp_num sf 1 a.1 c.1 x z hx hz]
          simp only [one_mul] at hab' hbc' ⊢
          split_ifs at hab' hbc' ⊢ <;> omega)
        (selStage em b n (.qobj spec)) hnum
      refine key.imp_of_mem ?_
      intro a b ha hb hab
      have hab' : sortCmp sf 1 a.1 b.1 ≤ 0 := hab
      intro x y hx hy
      rw [sortCmp_num sf 1 a.1 b.1 x y hx hy] at hab'
      simp only [one_mul] at hab'
      split_ifs at hab' <;> omega
    · intro hsv
      rw [hsort]
      show (sortByCmp (fun a b => sortCmp sf (if sv < 0 then -1 else 1) a.1 b.1)
        (selStage em b n (.qobj spec))).Pairwise (descByField sf)
      rw [if_pos hsv]
      have key := sortByCmp_pairwise
        (fun a b : Record × Option String => sortCmp sf (-1) a.1 b.1)
        (fun rp => ∃ x : Int, getF rp.1 sf = .num x)
        (by
          intro a b hPa hPb hab
          obtain ⟨x, hx⟩ := hPa
          obtain ⟨y, hy⟩ := hPb
          have hab' : ¬ sortCmp sf (-1) a.1 b.1 ≤ 0 := hab
          show sortCmp sf (-1) b.1 a.1 ≤ 0
          rw [sortCmp_num sf (-1) a.1 b.1 x y hx hy] at hab'
          rw [sortCmp_num sf (-1) b.1 a.1 y x hy hx]
          split_ifs at hab' ⊢ <;> omega)
        (by
          intro a b c hPa hPb hPc hab hbc
          obtain ⟨x, hx⟩ := hPa
          obtain ⟨y, hy⟩ := hPb
          obtain ⟨z, hz⟩ := hPc
          have hab' : sortCmp sf (-1) a.1 b.1 ≤ 0 := hab
          have hbc' : sortCmp sf (-1) b.1 c.1 ≤ 0 := hbc
          show sortCmp sf (-1) a.1 c.1 ≤ 0
          rw [sortCmp_num sf (-1) a.1 b.1 x y hx hy] at hab'
          rw [sortCmp_num sf (-1) b.1 c.1 y z hy hz] at hbc'
          rw [sortCmp_num sf (-1) a.1 c.1 x z hx hz]
          split_ifs at hab' hbc' ⊢ <;> omega)
        (selStage em b n (.qobj spec)) hnum
      refine key.imp_of_mem ?_
      intro a b ha hb hab
      have hab' : sortCmp sf (-1) a.1 b.1 ≤ 0 := hab
      intro x y hx hy
      rw [sortCmp_num sf (-1) a.1 b.1 x y hx hy] at hab'
      split_ifs at hab' <;> omega

/-- A two-record numeric store for the sort witness. -/
def c7em : Entmap :=
  [("b", [("n", [("a", [("id", JVal.str "a"), ("p", JVal.num 30)]),
                 ("c", [("id", JVal.str "c"), ("p", JVal.num 10)])])])]

/-- Witness for C7: sorting `c7em` ascending on `p` ignores a second
directive entry and yields a list that is pairwise ascending on `p`. -/
theorem c7_witness :
    (sortStage [("p", (1 : Int)), ("q", 5)]
        (selStage c7em "b" "n" (.qobj { sort := [("p", 1), ("q", 5)] })) =
      sortStage [("p", (1 : Int))]
        (selStage c7em "b" "n" (.qobj { sort := [("p", 1), ("q", 5)] }))) ∧
    (sortStage [("p", (1 : Int)), ("q", 5)]
        (selStage c7em "b" "n" (.qobj { sort := [("p", 1), ("q", 5)] }))).Pairwise
      (ascByField "p") := by
  have h := c7_sort_semantics c7em "b" "n" { sort := [("p", 1), ("q", 5)] } "p" 1 [("q", 5)] rfl
  refine ⟨h.1, ?_⟩
  have hnum : ∀ rp ∈ selStage c7em "b" "n" (.qobj { sort := [("p", 1), ("q", 5)] }),
      ∃ x : Int, getF rp.1 "p" = .num x := by
    intro rp hrp
    rw [show selStage c7em "b" "n" (.qobj { sort := [("p", 1), ("q", 5)] }) =
      [([("id", JVal.str "a"), ("p", JVal.num 30)], none),
       ([("id", JVal.str "c"), ("p", JVal.num 10)], none)] from rfl] at hrp
    rcases List.mem_cons.mp hrp with rfl | hrp'
    · exact ⟨30, rfl⟩
    · rcases List.mem_cons.mp hrp' with rfl | h0
      · exact ⟨10, rfl⟩
      · exact absurd h0 (by simp)
  exact (h.2.2.2 hnum).1 (by norm_num)

/-! ## Save-path lemmas -/

theorem any_key_false_of_alookup_none {α : Type} (m : List (String × α)) (k : String)
    (h : alookup m k = none) : m.any (fun kv => kv.1 == k) = false := by
  induction m with
  | nil => rfl
  | cons a m ih =>
    cases ha : (a.1 == k) with
    | true =>
      exfalso
      simp [alookup, List.find?, ha] at h
    | false =>
      have h' : alookup m k = none := by
        simpa [alookup, List.find?, ha] using h
      simpa [List.any_cons, ha] using ih h'

theorem ensure_of_coll (em : Entmap) (b n : String) (coll : Coll)
    (h : getColl em b n = some coll) : ensure em b n = em := by
  unfold getColl at h
  unfold ensure
  split
  · next hb =>
    rw [hb] at h
    simp [Option.bind] at h
  · next bm hb =>
    rw [hb] at h
    simp only [Option.bind] at h
    split
    · next hn =>
      rw [hn] at h
      cases h
    · next hn => rfl

theorem getRec_ensure (em : Entmap) (b n i : String) :
    getRec (ensure em b n) b n i = getRec em b n i := by
  unfold ensure
  split
  · next hb =>
    show getRec (em ++ [(b, [(n, [])])]) b n i = getRec em b n i
    unfold getRec getColl
    rw [alookup_append_self em b [(n, [])] (any_key_false_of_alookup_none em b hb), hb]
    simp [alookup, List.find?]
  · next bm hb =>
    split
    · next hn =>
      show getRec (aset em b (bm ++ [(n, [])])) b n i = getRec em b n i
      unfold getRec getColl
      rw [alookup_aset, hb]
      simp only [Option.bind]
      rw [alookup_append_self bm n [] (any_key_false_of_alookup_none bm n hn), hn]
      rfl
    · next hn => rfl

/-- When the draft is new and the id resolves locally, `save` routes into
`do_save` with that id and the `isnew` flag set. -/
theorem save_create_route (opts : SaveOpts) (em : Entmap) (ent : Ent)
    (qups : Option (List String)) (i : String)
    (hnew : is_new ent = true) (hres : resolveId opts ent = some i) :
    save opts em ent qups = do_save opts em ent qups (some i) true := by
  unfold save
  rw [hnew]
  show create_new opts em ent qups = _
  unfold create_new
  unfold resolveId at hres
  cases hid : ent.idDollar with
  | some j =>
    rw [hid] at hres
    injection hres with hij
    rw [hij]
  | none =>
    rw [hid] at hres
    dsimp only at hres ⊢
    rw [hres]

/-! ## Claim C3: duplicate-id conflict on the create path -/

/-- C3: on the create path (new draft, id resolved), a record already stored
under the resolved id makes `save` fail with the duplicate-id error carrying
the entity type and the id, and the store — including the existing
record — is left exactly as it was. -/
theorem c3_duplicate_id :
    ∀ (opts : SaveOpts) (em : Entmap) (ent : Ent) (qups : Option (List String))
      (i : String) (prev : Record),
      is_new ent = true → resolveId opts ent = some i →
      getRec em ent.base ent.name i = some prev →
      save opts em ent qups = .dupErr ent.etype (some i) em := by
  intro opts em ent qups i prev hnew hres hprev
  rw [save_create_route opts em ent qups i hnew hres]
  have hcoll : ∃ coll, getColl em ent.base ent.name = some coll := by
    unfold getRec at hprev
    cases hc : getColl em ent.base ent.name with
    | none => rw [hc] at hprev; cases hprev
    | some c => exact ⟨c, rfl⟩
  obtain ⟨coll, hcoll⟩ := hcoll
  have hens : ensure em ent.base ent.name = em := ensure_of_coll _ _ _ _ hcoll
  unfold do_save
  dsimp only
  rw [getF_aset, show jToString (JVal.str i) = i from rfl, hens, hprev]
  simp

/-- A one-record store and a colliding new draft for the C3 witness. -/
def c3em : Entmap := [("b", [("n", [("x", [("id", JVal.str "x"), ("f", JVal.num 1)])])])]

def c3ent : Ent := { data := [("f", JVal.num 2)], idDollar := some "x", base := "b", name := "n" }

/-- Witness for C3: saving a new draft whose explicit `id$` collides with the
stored record fails with the duplicate-id error and leaves the store
untouched. -/
theorem c3_witness :
    save {} c3em c3ent none = .dupErr "-/-/foo" (some "x") c3em :=
  c3_duplicate_id {} c3em c3ent none "x" [("id", JVal.str "x"), ("f", JVal.num 1)]
    rfl rfl rfl

/-! ## Claim C5: the merge law -/

/-- C5: an ordinary save of a draft sharing its id with stored record `A`
commits `A` overlaid by the draft when merging is enabled (draft keys win,
untouched keys of `A` survive — the pointwise overlay law) and exactly the
draft when merging is disabled; merging is disabled exactly when the global
option disables it and the draft does not opt back in, or the draft opts out
regardless of the global option. -/
theorem c5_merge_law :
    ∀ (opts : SaveOpts) (em : Entmap) (ent : Ent) (qups : Option (List String))
      (i : String) (A : Record),
      getF ent.data "id" = .str i →
      getRec em ent.base ent.name i = some A →
      (save opts em ent qups =
        .ok (if shouldMergeB opts ent then jsAssign A ent.data else ent.data)
            (putRec em ent.base ent.name i
              (if shouldMergeB opts ent then jsAssign A ent.data else ent.data))) ∧
      (nodupKeysB ent.data = true →
        ∀ k, getF (jsAssign A ent.data) k =
          if hasField ent.data k then getF ent.data k else getF A k) ∧
      (shouldMergeB opts ent = false ↔
        ((opts.merge = some false ∧ ent.mergeDollar ≠ some true) ∨
          ent.mergeDollar = some false)) := by
  intro opts em ent qups i A hid hA
  have hnew : is_new ent = false := by
    unfold is_new
    rw [hid]
    rfl
  have hcoll : ∃ coll, getColl em ent.base ent.name = some coll := by
    unfold getRec at hA
    cases hc : getColl em ent.base ent.name with
    | none => rw [hc] at hA; cases hA
    | some c => exact ⟨c, rfl⟩
  obtain ⟨coll, hcoll⟩ := hcoll
  have hens : ensure em ent.base ent.name = em := ensure_of_coll _ _ _ _ hcoll
  refine ⟨?_, ?_, ?_⟩
  · unfold save
    rw [hnew]
    show do_save opts em ent qups none false = _
    unfold do_save
    dsimp only
    rw [hid, show jToString (JVal.str i) = i from rfl, hens, hA, hnew]
    simp
  · intro hnd k
    exact getF_jsAssign A ent.data k hnd
  · have hPB : shouldMergeB opts ent = false ↔
        ((opts.merge ≠ some false ∧ ent.mergeDollar = some false) ∨
          (opts.merge = some false ∧ ent.mergeDollar ≠ some true)) := by
      unfold shouldMergeB
      rw [Bool.not_eq_false', decide_eq_true_eq]
    rw [hPB]
    constructor
    · rintro (⟨h1, h2⟩ | ⟨h1, h2⟩)
      · exact Or.inr h2
      · exact Or.inl ⟨h1, h2⟩
    · rintro (⟨h1, h2⟩ | h2)
      · exact Or.inr ⟨h1, h2⟩
      · by_cases hm : opts.merge = some false
        · exact Or.inr ⟨hm, by rw [h2]; simp⟩
        · exact Or.inl ⟨hm, h2⟩

/-- Stored record and overlapping draft for the C5 witness. -/
def c5em : Entmap :=
  [("b", [("n", [("x", [("id", JVal.str "x"), ("f", JVal.num 1), ("g", JVal.num 2)])])])]

def c5data : Record := [("id", JVal.str "x"), ("g", JVal.num 9), ("h", JVal.num 3)]

def c5ent : Ent := { data := c5data, base := "b", name := "n" }

/-- Witness for C5: with default options the merge-enabled save overlays the
stored record (the draft's `g` wins, the stored `f` survives), and the
overlay law holds pointwise. -/
theorem c5_witness :
    (save {} c5em c5ent none =
      .ok (jsAssign [("id", JVal.str "x"), ("f", JVal.num 1), ("g", JVal.num 2)] c5ent.data)
          (putRec c5em "b" "n" "x"
            (jsAssign [("id", JVal.str "x"), ("f", JVal.num 1), ("g", JVal.num 2)] c5ent.data))) ∧
    getF (jsAssign [("id", JVal.str "x"), ("f", JVal.num 1), ("g", JVal.num 2)] c5ent.data) "f" =
      JVal.num 1 ∧
    getF (jsAssign [("id", JVal.str "x"), ("f", JVal.num 1), ("g", JVal.num 2)] c5ent.data) "g" =
      JVal.num 9 := by
  have h := c5_merge_law {} c5em c5ent none "x"
    [("id", JVal.str "x"), ("f", JVal.num 1), ("g", JVal.num 2)] rfl rfl
  refine ⟨?_, ?_, ?_⟩
  · have h1 := h.1
    rw [show shouldMergeB {} c5ent = true from rfl] at h1
    simpa using h1
  · rw [h.2.1 rfl "f"]
    rfl
  · rw [h.2.1 rfl "g"]
    rfl

/-! ## Claim C8: the new/update discriminator -/

/-- The record an ordinary (non-upsert) `do_save` commits: the previous
record under the draft's own id overlaid by the draft when merging is
enabled, the draft alone otherwise. -/
def mergedOf (opts : SaveOpts) (em : Entmap) (ent : Ent) : Record :=
  let em1 := ensure em ent.base ent.name
  let key := jToString (getF ent.data "id")
  let prev := getRec em1 ent.base ent.name key
  if shouldMergeB opts ent then jsAssign (prev.getD []) ent.data else ent.data

/-- C8: a draft is "new" iff its `id` field is absent (`undefined`) or
`null`; a save of a draft carrying any non-null id — seen before or
not — routes through the update path: it always succeeds with a plain
overwrite/merge through the store under that id and never runs duplicate-id
detection (the conclusion holds with no assumption on what the store holds
under that id). -/
theorem c8_update_path :
    ∀ (opts : SaveOpts) (em : Entmap) (ent : Ent) (qups : Option (List String)),
      (is_new ent = true ↔
        (getF ent.data "id" = .null ∨ getF ent.data "id" = .undef)) ∧
      (nullish (getF ent.data "id") = false →
        save opts em ent qups =
          .ok (mergedOf opts em ent)
            (putRec (ensure em ent.base ent.name) ent.base ent.name
              (jToString (getF ent.data "id")) (mergedOf opts em ent))) := by
  intro opts em ent qups
  constructor
  · unfold is_new
    constructor
    · intro h
      cases hg : getF ent.data "id" with
      | null => exact Or.inl rfl
      | undef => exact Or.inr rfl
      | bool b => rw [hg] at h; exact Bool.noConfusion h
      | num n => rw [hg] at h; exact Bool.noConfusion h
      | str s => rw [hg] at h; exact Bool.noConfusion h
      | arr xs => rw [hg] at h; exact Bool.noConfusion h
    · rintro (hg | hg) <;> rw [hg] <;> rfl
  · intro h
    have hnew : is_new ent = false := by
      unfold is_new
      cases hg : getF ent.data "id" <;> rw [hg] at h <;>
        first | rfl | exact Bool.noConfusion h
    unfold save
    rw [hnew]
    show do_save opts em ent qups none false = _
    unfold do_save mergedOf
    dsimp only
    rw [hnew]
    simp

/-- A draft with a caller-chosen, never-before-seen id for the C8 witness:
it goes down the update path and is committed by plain write. -/
def c8ent : Ent := { data := [("id", JVal.str "newid"), ("v", JVal.num 5)], base := "b", name := "n" }

/-- Witness for C8 on an empty store: no duplicate error, the record is
simply committed under the explicitly supplied id. -/
theorem c8_witness :
    (is_new c8ent = true ↔
      (getF c8ent.data "id" = .null ∨ getF c8ent.data "id" = .undef)) ∧
    save {} [] c8ent none =
      .ok (mergedOf {} [] c8ent)
        (putRec (ensure [] "b" "n") "b" "n" "newid" (mergedOf {} [] c8ent)) := by
  have h := c8_update_path {} [] c8ent none
  exact ⟨h.1, h.2 rfl⟩

/-! ## Claim C4: conditional upsert -/

/-- Store and draft for the C4 counterexample: the draft is new, carries
`id$ = "x"` and upsert match field `f`, and the stored record under `"x"`
matches the draft on `f`. -/
def c4em : Entmap := [("b", [("n", [("x", [("id", JVal.str "x"), ("f", JVal.num 1)])])])]

def c4ent : Ent := { data := [("f", JVal.num 1)], idDollar := some "x", base := "b", name := "n" }

/-- C4 counterexample: with a conditional upsert requested and a stored
record matching every match field, `save` does *not* short-circuit past
duplicate-id detection — the duplicate check runs first (line 291, before
the upsert block at line 310), so a colliding resolved id yields the
duplicate-id error instead of the in-place merge the claim promises. -/
theorem c4_counterexample :
    save {} c4em c4ent (some ["f"]) = .dupErr "-/-/foo" (some "x") c4em ∧
    (save {} c4em c4ent (some ["f"])).isOk = false :=
  ⟨rfl, rfl⟩

/-- C4 amended: when a conditional upsert is requested (new draft, non-empty
match-field list, every match field present in the draft) and the resolved id
does not collide with a stored record, the save merges the draft's fields
into the first stored record equal to the draft on every match field
(shallow overwrite at that record's slot), returns it, skips the ordinary
commit, and the result keeps the matched record's id (the draft carries
none).  Duplicate-id detection still runs first: a colliding resolved id
yields `DuplicateIdError` instead (see the counterexample). -/
theorem c4_upsert_amended :
    ∀ (opts : SaveOpts) (em : Entmap) (ent : Ent) (ups : List String) (i : String)
      (kdoc : String × Record),
      is_new ent = true →
      hasField ent.data "id" = false →
      resolveId opts ent = some i →
      getRec em ent.base ent.name i = none →
      ups ≠ [] →
      ups.all (fun p => hasField ent.data p) = true →
      find_one_doc (ensure em ent.base ent.name) ent.base ent.name
          (ups.map (fun p => (p, getF ent.data p))) = some kdoc →
      save opts em ent (some ups) =
        .ok (jsAssign kdoc.2 ent.data)
            (putRec (ensure em ent.base ent.name) ent.base ent.name kdoc.1
              (jsAssign kdoc.2 ent.data)) ∧
      getF (jsAssign kdoc.2 ent.data) "id" = getF kdoc.2 "id" := by
  intro opts em ent ups i kdoc hnew hnoid hres hfresh hne hall hfind
  refine ⟨?_, getF_jsAssign_not_mem _ _ _ hnoid⟩
  rw [save_create_route opts em ent (some ups) i hnew hres]
  unfold do_save
  dsimp only
  rw [getF_aset, show jToString (JVal.str i) = i from rfl, getRec_ensure, hfresh]
  rw [if_neg (by simp)]
  rw [hnew]
  rw [if_pos rfl]
  rw [if_pos ⟨List.length_pos.mpr hne, hall⟩]
  unfold update_one_doc
  rw [hfind]

/-- Store and draft for the C4 witness: fresh generated id `"z"`, match
field `f` hitting the stored record `"a"`. -/
def c4wem : Entmap := [("b", [("n", [("a", [("id", JVal.str "a"), ("f", JVal.num 1)])])])]

def c4went : Ent := { data := [("f", JVal.num 1), ("g", JVal.num 7)], base := "b", name := "n" }

/-- Witness for C4's amended statement: the upsert merges into the stored
record `"a"` and keeps its id. -/
theorem c4_witness :
    save { genId := some "z" } c4wem c4went (some ["f"]) =
      .ok (jsAssign [("id", JVal.str "a"), ("f", JVal.num 1)] c4went.data)
          (putRec (ensure c4wem "b" "n") "b" "n" "a"
            (jsAssign [("id", JVal.str "a"), ("f", JVal.num 1)] c4went.data)) ∧
    getF (jsAssign [("id", JVal.str "a"), ("f", JVal.num 1)] c4went.data) "id" =
      getF [("id", JVal.str "a"), ("f", JVal.num 1)] "id" :=
  c4_upsert_amended { genId := some "z" } c4wem c4went ["f"] "z"
    ("a", [("id", JVal.str "a"), ("f", JVal.num 1)]) rfl rfl rfl rfl
    (by simp) rfl rfl

/-! ## Claim C9: remove -/

theorem head?_take_one {α : Type} (l : List α) : (l.take 1).head? = l.head? := by
  cases l <;> rfl

/-- C9: remove runs the result pipeline; with the remove-all flag it deletes
every pipeline result, otherwise only the first; it returns the single
deleted record iff the load flag was set and the all flag was not, and
otherwise nothing; and when no record matches it is a no-op on the store,
not an error. -/
theorem c9_remove :
    ∀ (em : Entmap) (b n : String) (q : Query),
      ((listents em b n q).1 = [] → remove em b n q = (none, em)) ∧
      (qAll q = true →
        remove em b n q = (none,
          removeIds em b n (((listents em b n q).1).map
            (fun rp => jToString (getF rp.1 "id"))))) ∧
      (qAll q = false →
        remove em b n q =
          ((if qLoad q then ((listents em b n q).1).head? else none),
            removeIds em b n ((((listents em b n q).1).take 1).map
              (fun rp => jToString (getF rp.1 "id"))))) := by
  intro em b n q
  refine ⟨?_, ?_, ?_⟩
  · intro h
    unfold remove
    dsimp only
    rw [h, listents_store_unchanged]
    cases ha : qAll q <;> cases hl : qLoad q <;> simp [removeIds, ha, hl]
  · intro ha
    unfold remove
    dsimp only
    rw [ha, listents_store_unchanged]
    unfold removeIds
    rw [List.foldl_map]
    simp
  · intro ha
    unfold remove
    dsimp only
    rw [ha, listents_store_unchanged]
    unfold removeIds
    rw [List.foldl_map]
    cases hl : qLoad q <;> simp [hl, head?_take_one]

/-- Witness for C9 on the two-record store: a filter matching nothing is a
no-op returning nothing, and a load-flagged remove deletes and returns the
first pipeline result. -/
theorem c9_witness :
    remove c2em "b" "n" (.qobj { filter := [("zz", QFVal.scalar (JVal.num 9))] }) =
      (none, c2em) ∧
    remove c2em "b" "n" (.qobj { loadQ := true }) =
      ((if qLoad (.qobj { loadQ := true }) then
          ((listents c2em "b" "n" (.qobj { loadQ := true })).1).head? else none),
        removeIds c2em "b" "n" ((((listents c2em "b" "n" (.qobj { loadQ := true })).1).take 1).map
          (fun rp => jToString (getF rp.1 "id")))) := by
  constructor
  · exact (c9_remove c2em "b" "n" _).1 rfl
  · exact (c9_remove c2em "b" "n" _).2.2 rfl

end MemStore
